import Mathlib

/-!
Verification of the ST7735 TFT display driver (`src/lib.rs`).

The driver is embedded shallowly: the hardware collaborators (SPI bus, the
data/command pin, the reset pin, the delay provider) are replaced by an
explicit world that records every attempted low-level call as an event and
decides, through a fault oracle indexed by a running call counter, whether
each fallible pin-drive or bus-write call succeeds.  Rust's `?` operator
becomes the short-circuiting bind `M.bind`; `u16` values are natural numbers
reduced modulo 2^16 at every arithmetic site, matching the release-mode
wrapping semantics of the source; `Result<(), ()>` becomes `Except Unit`.
-/

namespace ST7735

/-- Modelled from the spec: `lib.rs` declares `pub mod instruction` but the
file `src/instruction.rs` is not part of the provided sources.  The spec
describes it as "an immutable enumeration mapping a named controller
operation (reset, sleep-out, frame-rate control, power control, inversion
on/off, memory access control, color-mode set, display-on, column/row address
set, memory write, ...) to its single-byte wire value".  The constructors are
exactly the ones `lib.rs` references; the byte values are the standard ST7735
controller command bytes (only their distinctness matters to the theorems
below). -/
inductive Instruction where
  | SWRESET
  | SLPOUT
  | INVOFF
  | INVON
  | DISPON
  | CASET
  | RASET
  | RAMWR
  | MADCTL
  | COLMOD
  | FRMCTR1
  | FRMCTR2
  | FRMCTR3
  | INVCTR
  | PWCTR1
  | PWCTR2
  | PWCTR3
  | PWCTR4
  | PWCTR5
  | VMCTR1
deriving DecidableEq

/-- Modelled from the spec: the wire byte of each instruction (see
`Instruction`). -/
def Instruction.to_u8 : Instruction → Nat
  | .SWRESET => 0x01
  | .SLPOUT => 0x11
  | .INVOFF => 0x20
  | .INVON => 0x21
  | .DISPON => 0x29
  | .CASET => 0x2A
  | .RASET => 0x2B
  | .RAMWR => 0x2C
  | .MADCTL => 0x36
  | .COLMOD => 0x3A
  | .FRMCTR1 => 0xB1
  | .FRMCTR2 => 0xB2
  | .FRMCTR3 => 0xB3
  | .INVCTR => 0xB4
  | .PWCTR1 => 0xC0
  | .PWCTR2 => 0xC1
  | .PWCTR3 => 0xC2
  | .PWCTR4 => 0xC3
  | .PWCTR5 => 0xC4
  | .VMCTR1 => 0xC5

/-- Display orientation (`enum Orientation` in `lib.rs`). -/
inductive Orientation where
  | Portrait
  | Landscape
  | PortraitSwapped
  | LandscapeSwapped
deriving DecidableEq

/-- The discriminant values of `Orientation` in `lib.rs`
(`Portrait = 0x00, Landscape = 0x60, PortraitSwapped = 0xC0,
LandscapeSwapped = 0xA0`), as produced by `to_u8`. -/
def Orientation.to_u8 : Orientation → Nat
  | .Portrait => 0x00
  | .Landscape => 0x60
  | .PortraitSwapped => 0xC0
  | .LandscapeSwapped => 0xA0

/-- One observable interaction with the hardware: a drive of the
data/command pin, a drive of the reset pin, one SPI bus write of a byte
sequence, or a blocking delay. -/
inductive Event where
  | dcLow
  | dcHigh
  | rstLow
  | rstHigh
  | spiWrite (bytes : List Nat)
  | delayMs (ms : Nat)
deriving DecidableEq

/-- The driver's own stored configuration: the fields of `struct ST7735`
other than the three hardware handles.  `dx`, `dy` model the `u16` offset
fields, `width`/`height` the `u32` dimension fields. -/
structure DriverState where
  rgb : Bool
  inverted : Bool
  dx : Nat
  dy : Nat
  width : Nat
  height : Nat
deriving DecidableEq

/-- The world a driver computation runs in: the fault oracle (`oracle i`
tells whether the `i`-th fallible pin/bus call succeeds), the number of
fallible calls attempted so far, and the driver's stored state. -/
structure World where
  oracle : Nat → Bool
  calls : Nat
  st : DriverState

/-- A driver computation: runs in a `World`, returns a `Result` (`Except
Unit`), the final world, and the list of hardware events it attempted,
in order. -/
def M (α : Type) : Type := World → Except Unit α × World × List Event

/-- `Ok(a)` with no hardware activity. -/
def M.pure {α : Type} (a : α) : M α := fun w => (Except.ok a, w, [])

/-- Sequencing with Rust's `?` semantics: the second computation runs only
if the first returned `Ok`; events concatenate. -/
def M.bind {α β : Type} (m : M α) (f : α → M β) : M β := fun w =>
  match m w with
  | (Except.ok a, w1, t1) =>
    match f a w1 with
    | (r, w2, t2) => (r, w2, t1 ++ t2)
  | (Except.error e, w1, t1) => (Except.error e, w1, t1)

/-- One fallible low-level call (a pin drive or an SPI bus write): the
attempt is recorded as an event, consumes one oracle index, and succeeds
exactly when the oracle says so. -/
def attempt (e : Event) : M Unit := fun w =>
  (if w.oracle w.calls then Except.ok () else Except.error (),
   { w with calls := w.calls + 1 }, [e])

/-- `self.dc.set_low()`. -/
def dcSetLow : M Unit := attempt Event.dcLow

/-- `self.dc.set_high()`. -/
def dcSetHigh : M Unit := attempt Event.dcHigh

/-- `self.rst.set_low()`. -/
def rstSetLow : M Unit := attempt Event.rstLow

/-- `self.rst.set_high()`. -/
def rstSetHigh : M Unit := attempt Event.rstHigh

/-- `self.spi.write(bytes)`. -/
def spiWriteBytes (bytes : List Nat) : M Unit := attempt (Event.spiWrite bytes)

/-- `delay.delay_ms(ms)`: infallible, no bus/pin call, recorded as an
event. -/
def delayCall (ms : Nat) : M Unit := fun w => (Except.ok (), w, [Event.delayMs ms])

/-- Read the driver's stored fields (access to `self.rgb`, `self.inverted`,
`self.dx`, `self.dy`). -/
def getSt : M DriverState := fun w => (Except.ok w.st, w, [])

/-- Big-endian byte pair of a `u16` value (`write_word`'s
`transmute(value.to_be())`). -/
def toBE (value : Nat) : List Nat := [value % 65536 / 256, value % 256]

/-- `u16` wrapping addition. -/
def u16add (a b : Nat) : Nat := (a + b) % 65536

/-- `u16` wrapping subtraction. -/
def u16sub (a b : Nat) : Nat := (a % 65536 + (65536 - b % 65536)) % 65536

/-- `u16` wrapping multiplication. -/
def u16mul (a b : Nat) : Nat := a % 65536 * (b % 65536) % 65536

/-- `fn write_data`: drive the data/command pin high, then write the bytes
on the bus. -/
def write_data (data : List Nat) : M Unit :=
  M.bind dcSetHigh (fun _ => spiWriteBytes data)

/-- `fn write_command`: drive the data/command pin low, write the single
opcode byte, then write the parameter bytes (if any) via `write_data`. -/
def write_command (command : Instruction) (params : Option (List Nat)) : M Unit :=
  M.bind dcSetLow (fun _ =>
    M.bind (spiWriteBytes [command.to_u8]) (fun _ =>
      match params with
      | some ps => write_data ps
      | none => M.pure ()))

/-- `fn write_word`: write a `u16` as two big-endian bytes in data mode. -/
def write_word (value : Nat) : M Unit := write_data (toBE value)

/-- `pub fn hard_reset`: drive the reset pin high, low, high. -/
def hard_reset : M Unit :=
  M.bind rstSetHigh (fun _ => M.bind rstSetLow (fun _ => rstSetHigh))

/-- `pub fn init`: hard reset, then the fixed command/delay sequence, with
the inversion opcode chosen by `self.inverted` and the MADCTL parameter by
`self.rgb`. -/
def init : M Unit :=
  M.bind hard_reset (fun _ =>
  M.bind (write_command .SWRESET none) (fun _ =>
  M.bind (delayCall 200) (fun _ =>
  M.bind (write_command .SLPOUT none) (fun _ =>
  M.bind (delayCall 200) (fun _ =>
  M.bind (write_command .FRMCTR1 (some [0x01, 0x2C, 0x2D])) (fun _ =>
  M.bind (write_command .FRMCTR2 (some [0x01, 0x2C, 0x2D])) (fun _ =>
  M.bind (write_command .FRMCTR3 (some [0x01, 0x2C, 0x2D, 0x01, 0x2C, 0x2D])) (fun _ =>
  M.bind (write_command .INVCTR (some [0x07])) (fun _ =>
  M.bind (write_command .PWCTR1 (some [0xA2, 0x02, 0x84])) (fun _ =>
  M.bind (write_command .PWCTR2 (some [0xC5])) (fun _ =>
  M.bind (write_command .PWCTR3 (some [0x0A, 0x00])) (fun _ =>
  M.bind (write_command .PWCTR4 (some [0x8A, 0x2A])) (fun _ =>
  M.bind (write_command .PWCTR5 (some [0x8A, 0xEE])) (fun _ =>
  M.bind (write_command .VMCTR1 (some [0x0E])) (fun _ =>
  M.bind getSt (fun s =>
  M.bind (if s.inverted then write_command .INVON none else write_command .INVOFF none) (fun _ =>
  M.bind (if s.rgb then write_command .MADCTL (some [0x00])
          else write_command .MADCTL (some [0x08])) (fun _ =>
  M.bind (write_command .COLMOD (some [0x05])) (fun _ =>
  M.bind (write_command .DISPON none) (fun _ =>
  delayCall 200))))))))))))))))))))

/-- `pub fn set_orientation`: MADCTL with the orientation byte, OR'd with
`0x08` when the color order is BGR (`self.rgb == false`). -/
def set_orientation (orientation : Orientation) : M Unit :=
  M.bind getSt (fun s =>
    if s.rgb then write_command .MADCTL (some [orientation.to_u8])
    else write_command .MADCTL (some [orientation.to_u8 ||| 0x08]))

/-- `pub fn set_offset`: store the new offset; no hardware activity, no
failure. -/
def set_offset (dx dy : Nat) : M Unit := fun w =>
  (Except.ok (),
   { w with st := { w.st with dx := dx % 65536, dy := dy % 65536 } }, [])

/-- `fn set_address_window`: CASET with `sx+dx`, `ex+dx`, then RASET with
`sy+dy`, `ey+dy`, each word big-endian. -/
def set_address_window (sx sy ex ey : Nat) : M Unit :=
  M.bind (write_command .CASET none) (fun _ =>
  M.bind getSt (fun s =>
  M.bind (write_word (u16add sx s.dx)) (fun _ =>
  M.bind (write_word (u16add ex s.dx)) (fun _ =>
  M.bind (write_command .RASET none) (fun _ =>
  M.bind (write_word (u16add sy s.dy)) (fun _ =>
  write_word (u16add ey s.dy)))))))

/-- `pub fn set_pixel`: 1-by-1 address window at `(x, y)`, RAMWR, one color
word. -/
def set_pixel (x y color : Nat) : M Unit :=
  M.bind (set_address_window x y x y) (fun _ =>
  M.bind (write_command .RAMWR none) (fun _ =>
  write_word color))

/-- The `for color in colors` loop body of `write_pixels`. -/
def write_pixels_loop : List Nat → M Unit
  | [] => M.pure ()
  | c :: rest => M.bind (write_word c) (fun _ => write_pixels_loop rest)

/-- `pub fn write_pixels`: RAMWR once, then each color as a big-endian word
in iteration order. -/
def write_pixels (colors : List Nat) : M Unit :=
  M.bind (write_command .RAMWR none) (fun _ => write_pixels_loop colors)

/-- `pub fn set_pixels`: address window then `write_pixels`. -/
def set_pixels (sx sy ex ey : Nat) (colors : List Nat) : M Unit :=
  M.bind (set_address_window sx sy ex ey) (fun _ => write_pixels colors)

/-- `pub fn set_color`: address window, then `write_pixels` on
`iter::repeat(color).take(pixel_count)` where
`pixel_count = (ex - sx + 1) * (ey - sy + 1)` computed in `u16`
arithmetic. -/
def set_color (sx sy ex ey color : Nat) : M Unit :=
  M.bind (set_address_window sx sy ex ey) (fun _ =>
  write_pixels (List.replicate
    (u16mul (u16add (u16sub ex sx) 1) (u16add (u16sub ey sy) 1)) color))

/-- The fault oracle under which every low-level call succeeds. -/
def allOk : Nat → Bool := fun _ => true

/-- Initial world with a given oracle and driver state. -/
def mkWorld (f : Nat → Bool) (st : DriverState) : World :=
  { oracle := f, calls := 0, st := st }

/-- The event trace of a computation run from state `st` with every
low-level call succeeding. -/
def runTrace (m : M Unit) (st : DriverState) : List Event :=
  (m (mkWorld allOk st)).2.2

/-- The events of a successful `write_word` for each color in order. -/
def pixelEvents : List Nat → List Event
  | [] => []
  | c :: rest => Event.dcHigh :: Event.spiWrite (toBE c) :: pixelEvents rest

/-- The events of a successful `set_address_window sx sy ex ey` from driver
state `st`. -/
def windowEvents (sx sy ex ey : Nat) (st : DriverState) : List Event :=
  [Event.dcLow, Event.spiWrite [Instruction.CASET.to_u8],
   Event.dcHigh, Event.spiWrite (toBE (u16add sx st.dx)),
   Event.dcHigh, Event.spiWrite (toBE (u16add ex st.dx)),
   Event.dcLow, Event.spiWrite [Instruction.RASET.to_u8],
   Event.dcHigh, Event.spiWrite (toBE (u16add sy st.dy)),
   Event.dcHigh, Event.spiWrite (toBE (u16add ey st.dy))]

/-- Whether a byte is the wire value of some controller opcode. -/
def isOpcodeByte (b : Nat) : Bool :=
  [0x01, 0x11, 0x20, 0x21, 0x29, 0x2A, 0x2B, 0x2C, 0x36, 0x3A,
   0xB1, 0xB2, 0xB3, 0xB4, 0xC0, 0xC1, 0xC2, 0xC3, 0xC4, 0xC5].contains b

/-- Local well-formedness of one event given the current data/command line
level (`false` = command, `true` = data): a bus write issued in command
state must consist of exactly one opcode byte; everything else is
unconstrained. -/
def wfStep (dc : Bool) (e : Event) : Bool :=
  match e with
  | Event.spiWrite bs =>
    if dc then true else bs.length == 1 && isOpcodeByte (bs.headD 0)
  | _ => true

/-- The data/command line level after one event. -/
def dcAfterEvent (dc : Bool) (e : Event) : Bool :=
  match e with
  | Event.dcLow => false
  | Event.dcHigh => true
  | _ => dc

/-- Command/data discipline of a whole trace, starting from line level
`dc`: every bus write performed in command state is a single opcode byte
(hence no write mixes an opcode with parameter bytes, and every parameter
or pixel byte goes out in data state). -/
def wfAux (dc : Bool) : List Event → Bool
  | [] => true
  | e :: rest => wfStep dc e && wfAux (dcAfterEvent dc e) rest

/-- The data/command line level after a whole trace. -/
def dcAfter (dc : Bool) : List Event → Bool
  | [] => dc
  | e :: rest => dcAfter (dcAfterEvent dc e) rest

/-- The payloads of the bus writes performed while the data/command line is
in command state, in order: the opcode bytes of the trace. -/
def cmdWrites (dc : Bool) : List Event → List (List Nat)
  | [] => []
  | Event.spiWrite bs :: rest =>
    if dc then cmdWrites dc rest else bs :: cmdWrites dc rest
  | e :: rest => cmdWrites (dcAfterEvent dc e) rest

/-- One public driver operation together with its arguments. -/
inductive Op where
  | opInit
  | opHardReset
  | opSetOrientation (o : Orientation)
  | opSetOffset (dx dy : Nat)
  | opSetPixel (x y c : Nat)
  | opWritePixels (cs : List Nat)
  | opSetPixels (sx sy ex ey : Nat) (cs : List Nat)
  | opSetColor (sx sy ex ey c : Nat)

/-- Run one public operation. -/
def runOp : Op → M Unit
  | .opInit => init
  | .opHardReset => hard_reset
  | .opSetOrientation o => set_orientation o
  | .opSetOffset dx dy => set_offset dx dy
  | .opSetPixel x y c => set_pixel x y c
  | .opWritePixels cs => write_pixels cs
  | .opSetPixels sx sy ex ey cs => set_pixels sx sy ex ey cs
  | .opSetColor sx sy ex ey c => set_color sx sy ex ey c

/-- Run a whole sequence of public operations the way an external caller
does: each operation is invoked in turn (whether or not an earlier one
failed), and all emitted events concatenate. -/
def runOps : List Op → M Unit
  | [] => M.pure ()
  | op :: rest => fun w =>
    match runOp op w with
    | (_, w1, t1) =>
      match runOps rest w1 with
      | (r, w2, t2) => (r, w2, t1 ++ t2)

/-- Whether a `Result` is `Ok`. -/
def exOk {α : Type} : Except Unit α → Bool
  | Except.ok _ => true
  | Except.error _ => false

/-- Command/data discipline of a computation: its trace satisfies `wfAux`
from every starting line level, in every world (any oracle, any state). -/
def WF {α : Type} (m : M α) : Prop :=
  ∀ (w : World) (dc : Bool), wfAux dc (m w).2.2 = true

/-- Error-propagation contract of a computation: the oracle is untouched,
the call counter only grows, the computation succeeds exactly when every
oracle index it consumed answered `true`, and on failure the last consumed
index is the failing one while all earlier consumed indices succeeded
(first failure aborts, no retry). -/
def ESpec {α : Type} (m : M α) : Prop :=
  ∀ w : World,
    (m w).2.1.oracle = w.oracle ∧
    w.calls ≤ (m w).2.1.calls ∧
    (exOk (m w).1 = true ↔
      ∀ i, w.calls ≤ i → i < (m w).2.1.calls → w.oracle i = true) ∧
    (exOk (m w).1 = false →
      w.calls < (m w).2.1.calls ∧
      w.oracle ((m w).2.1.calls - 1) = false ∧
      ∀ i, w.calls ≤ i → i < (m w).2.1.calls - 1 → w.oracle i = true)

/-- A computation that leaves the driver's stored fields untouched in every
world. -/
def StPres {α : Type} (m : M α) : Prop :=
  ∀ w : World, (m w).2.1.st = w.st

/-- Whether the operation is `set_offset`. -/
def Op.touchesOffset : Op → Bool
  | .opSetOffset _ _ => true
  | _ => false

/-- A sample driver state for concrete witnesses (rgb, inverted, 160 by
128, zero offset). -/
def st0 : DriverState :=
  { rgb := true, inverted := true, dx := 0, dy := 0, width := 160, height := 128 }

/-- A fault oracle whose second call (index 1) fails and all others
succeed. -/
def failSecond : Nat → Bool := fun i => !(i == 1)

/-- The full event sequence of a successful `init`, parametrized by the two
configuration flags: the inversion opcode is chosen by `inverted` and the
MADCTL parameter byte by `rgb`; everything else is fixed. -/
def initEvents (rgb inverted : Bool) : List Event :=
  [Event.rstHigh, Event.rstLow, Event.rstHigh,
   Event.dcLow, Event.spiWrite [Instruction.SWRESET.to_u8],
   Event.delayMs 200,
   Event.dcLow, Event.spiWrite [Instruction.SLPOUT.to_u8],
   Event.delayMs 200,
   Event.dcLow, Event.spiWrite [Instruction.FRMCTR1.to_u8],
   Event.dcHigh, Event.spiWrite [0x01, 0x2C, 0x2D],
   Event.dcLow, Event.spiWrite [Instruction.FRMCTR2.to_u8],
   Event.dcHigh, Event.spiWrite [0x01, 0x2C, 0x2D],
   Event.dcLow, Event.spiWrite [Instruction.FRMCTR3.to_u8],
   Event.dcHigh, Event.spiWrite [0x01, 0x2C, 0x2D, 0x01, 0x2C, 0x2D],
   Event.dcLow, Event.spiWrite [Instruction.INVCTR.to_u8],
   Event.dcHigh, Event.spiWrite [0x07],
   Event.dcLow, Event.spiWrite [Instruction.PWCTR1.to_u8],
   Event.dcHigh, Event.spiWrite [0xA2, 0x02, 0x84],
   Event.dcLow, Event.spiWrite [Instruction.PWCTR2.to_u8],
   Event.dcHigh, Event.spiWrite [0xC5],
   Event.dcLow, Event.spiWrite [Instruction.PWCTR3.to_u8],
   Event.dcHigh, Event.spiWrite [0x0A, 0x00],
   Event.dcLow, Event.spiWrite [Instruction.PWCTR4.to_u8],
   Event.dcHigh, Event.spiWrite [0x8A, 0x2A],
   Event.dcLow, Event.spiWrite [Instruction.PWCTR5.to_u8],
   Event.dcHigh, Event.spiWrite [0x8A, 0xEE],
   Event.dcLow, Event.spiWrite [Instruction.VMCTR1.to_u8],
   Event.dcHigh, Event.spiWrite [0x0E],
   Event.dcLow,
   Event.spiWrite [if inverted then Instruction.INVON.to_u8 else Instruction.INVOFF.to_u8],
   Event.dcLow, Event.spiWrite [Instruction.MADCTL.to_u8],
   Event.dcHigh, Event.spiWrite [if rgb then 0x00 else 0x08],
   Event.dcLow, Event.spiWrite [Instruction.COLMOD.to_u8],
   Event.dcHigh, Event.spiWrite [0x05],
   Event.dcLow, Event.spiWrite [Instruction.DISPON.to_u8],
   Event.delayMs 200]

/-- Under the all-success oracle, the `for color in colors` loop of
`write_pixels` succeeds, consumes two calls per color, and emits each color
as a data-mode big-endian word in order. -/
theorem write_pixels_loop_run (cs : List Nat) : ∀ (k : Nat) (st : DriverState),
    write_pixels_loop cs { oracle := allOk, calls := k, st := st } =
      (Except.ok (), { oracle := allOk, calls := k + 2 * cs.length, st := st },
       pixelEvents cs) := by
  induction cs with
  | nil => intro k st; rfl
  | cons c rest ih =>
    intro k st
    have h1 : write_pixels_loop (c :: rest) { oracle := allOk, calls := k, st := st } =
        ((write_pixels_loop rest { oracle := allOk, calls := k + 2, st := st }).1,
         (write_pixels_loop rest { oracle := allOk, calls := k + 2, st := st }).2.1,
         [Event.dcHigh, Event.spiWrite (toBE c)] ++
           (write_pixels_loop rest { oracle := allOk, calls := k + 2, st := st }).2.2) := rfl
    rw [h1, ih (k + 2) st]
    have h2 : k + 2 + 2 * rest.length = k + 2 * (rest.length + 1) := by omega
    simp [pixelEvents, h2, List.length_cons]

/-- Under the all-success oracle, `write_pixels` succeeds and emits the
RAMWR opcode followed by the colors as data-mode big-endian words. -/
theorem write_pixels_run (cs : List Nat) (k : Nat) (st : DriverState) :
    write_pixels cs { oracle := allOk, calls := k, st := st } =
      (Except.ok (), { oracle := allOk, calls := k + 2 + 2 * cs.length, st := st },
       Event.dcLow :: Event.spiWrite [Instruction.RAMWR.to_u8] :: pixelEvents cs) := by
  have h1 : write_pixels cs { oracle := allOk, calls := k, st := st } =
      ((write_pixels_loop cs { oracle := allOk, calls := k + 2, st := st }).1,
       (write_pixels_loop cs { oracle := allOk, calls := k + 2, st := st }).2.1,
       [Event.dcLow, Event.spiWrite [Instruction.RAMWR.to_u8]] ++
         (write_pixels_loop cs { oracle := allOk, calls := k + 2, st := st }).2.2) := rfl
  rw [h1, write_pixels_loop_run]
  rfl

/-- C1: for every `x`, `y`, color `c` and stored offset `(dx, dy)` (the
`dx`, `dy` fields of the driver state), `set_pixel x y c` emits exactly the
column-address-set opcode with the big-endian word `x + dx` (as `u16`
wrapping addition, see `u16add`) twice, the row-address-set opcode with the
word `y + dy` twice, the memory-write opcode, and one big-endian word `c` —
and nothing else (`windowEvents` spells out the two address commands and
their data words). -/
theorem set_pixel_exact_trace (x y color : Nat) (st : DriverState) :
    runTrace (set_pixel x y color) st =
      windowEvents x y x y st ++
      [Event.dcLow, Event.spiWrite [Instruction.RAMWR.to_u8],
       Event.dcHigh, Event.spiWrite (toBE color)] := rfl

/-- C3: for both values of `rgb` and both values of `inverted`, `init`
emits the same fixed, ordered sequence of commands and delays
(`initEvents`), which differs only in the inversion opcode (INVON when
`inverted`, INVOFF otherwise) and in the MADCTL parameter byte (`0x00` for
RGB, `0x08` for BGR). -/
theorem init_fixed_sequence (st : DriverState) :
    runTrace init st = initEvents st.rgb st.inverted := by
  rcases st with ⟨rgb, inverted, dx, dy, width, height⟩
  cases rgb <;> cases inverted <;> rfl

/-- C5: `set_orientation o` emits the MADCTL opcode with parameter byte
exactly `o`'s bit pattern when the color order is RGB, and `o`'s bit
pattern OR `0x08` when it is BGR; and no orientation bit pattern itself
contains the `0x08` bit. -/
theorem set_orientation_madctl (o : Orientation) (st : DriverState) :
    runTrace (set_orientation o) st =
      [Event.dcLow, Event.spiWrite [Instruction.MADCTL.to_u8],
       Event.dcHigh,
       Event.spiWrite [if st.rgb then o.to_u8 else o.to_u8 ||| 0x08]] ∧
    o.to_u8 &&& 0x08 = 0 := by
  rcases st with ⟨rgb, inverted, dx, dy, width, height⟩
  cases rgb <;> cases o <;> exact ⟨rfl, by decide⟩

/-- All command-state bus writes inside the per-color data stream: there
are none. -/
theorem cmdWrites_pixelEvents (cs : List Nat) : ∀ dc : Bool,
    cmdWrites dc (pixelEvents cs) = [] := by
  induction cs with
  | nil => intro dc; rfl
  | cons c rest ih =>
    intro dc
    simp [pixelEvents, cmdWrites, dcAfterEvent, ih]

/-- C4: for every finite color sequence (including the empty one),
`write_pixels` emits exactly one memory-write opcode followed by the colors
as big-endian words in iteration order; the only opcode issued in command
state is RAMWR, whose byte differs from both the column-address-set and the
row-address-set opcode bytes — so no window-setting opcode appears anywhere
in the output. -/
theorem write_pixels_stream (colors : List Nat) (st : DriverState) (dc : Bool) :
    runTrace (write_pixels colors) st =
      Event.dcLow :: Event.spiWrite [Instruction.RAMWR.to_u8] :: pixelEvents colors ∧
    cmdWrites dc (runTrace (write_pixels colors) st) = [[Instruction.RAMWR.to_u8]] ∧
    Instruction.RAMWR.to_u8 ≠ Instruction.CASET.to_u8 ∧
    Instruction.RAMWR.to_u8 ≠ Instruction.RASET.to_u8 := by
  have h1 : runTrace (write_pixels colors) st =
      Event.dcLow :: Event.spiWrite [Instruction.RAMWR.to_u8] :: pixelEvents colors := by
    show (write_pixels colors (mkWorld allOk st)).2.2 = _
    rw [show mkWorld allOk st = { oracle := allOk, calls := 0, st := st } from rfl,
        write_pixels_run]
  refine ⟨h1, ?_, by decide, by decide⟩
  rw [h1]
  simp [cmdWrites, dcAfterEvent, isOpcodeByte, cmdWrites_pixelEvents colors false]

/-- C6: `set_offset` replaces the stored offset (a second `set_offset`
overwrites the first completely, so a following `set_pixel x y c` transmits
window coordinates `(x + dx) mod 2^16`, `(y + dy) mod 2^16` from the most
recent `dx`, `dy` only), and `set_offset` itself performs no bus or pin
activity, consumes no fallible call, and always returns `Ok`. -/
theorem set_offset_replaces (dx0 dy0 dx dy x y color : Nat) (w : World) :
    (set_offset dx dy w).1 = Except.ok () ∧
    (set_offset dx dy w).2.2 = [] ∧
    (set_offset dx dy w).2.1.calls = w.calls ∧
    (set_offset dx dy w).2.1.oracle = w.oracle ∧
    (set_offset dx dy w).2.1.st =
      { w.st with dx := dx % 65536, dy := dy % 65536 } ∧
    M.bind (set_offset dx0 dy0) (fun _ => set_offset dx dy) w = set_offset dx dy w ∧
    runTrace (M.bind (set_offset dx dy) (fun _ => set_pixel x y color)) w.st =
      [Event.dcLow, Event.spiWrite [Instruction.CASET.to_u8],
       Event.dcHigh, Event.spiWrite (toBE ((x + dx) % 65536)),
       Event.dcHigh, Event.spiWrite (toBE ((x + dx) % 65536)),
       Event.dcLow, Event.spiWrite [Instruction.RASET.to_u8],
       Event.dcHigh, Event.spiWrite (toBE ((y + dy) % 65536)),
       Event.dcHigh, Event.spiWrite (toBE ((y + dy) % 65536)),
       Event.dcLow, Event.spiWrite [Instruction.RAMWR.to_u8],
       Event.dcHigh, Event.spiWrite (toBE color)] := by
  refine ⟨rfl, rfl, rfl, rfl, rfl, rfl, ?_⟩
  have hx : u16add x (dx % 65536) = (x + dx) % 65536 := by unfold u16add; omega
  have hy : u16add y (dy % 65536) = (y + dy) % 65536 := by unfold u16add; omega
  rw [← hx, ← hy]
  rfl

/-- C2 as stated is false on the code: for the `u16` rectangle
`(0,0)-(255,255)` the claim demands `(255-0+1)*(255-0+1) = 65536`
repetitions of the color word, but `set_color` computes the pixel count in
`u16` arithmetic, `256 * 256` wraps to `0`, and the emitted trace ends
right after the memory-write opcode with zero color words. -/
theorem set_color_count_wraps :
    runTrace (set_color 0 0 255 255 0) st0 =
      [Event.dcLow, Event.spiWrite [0x2A],
       Event.dcHigh, Event.spiWrite [0, 0],
       Event.dcHigh, Event.spiWrite [0, 255],
       Event.dcLow, Event.spiWrite [0x2B],
       Event.dcHigh, Event.spiWrite [0, 0],
       Event.dcHigh, Event.spiWrite [0, 255],
       Event.dcLow, Event.spiWrite [0x2C]] ∧
    (255 - 0 + 1) * (255 - 0 + 1) = 65536 := ⟨rfl, rfl⟩

/-- C2 (amended): for every `u16` rectangle with `sx ≤ ex` and `sy ≤ ey`
and every color, `set_color` emits the address-window write for the
rectangle, the memory-write opcode, and exactly
`((ex - sx + 1) * (ey - sy + 1)) mod 2^16` repetitions of the big-endian
color word — the repetition count is computed in wrapping 16-bit
arithmetic, not as the mathematical pixel count. -/
theorem set_color_fill (sx sy ex ey color : Nat) (st : DriverState)
    (hsx : sx ≤ ex) (hex : ex < 65536) (hsy : sy ≤ ey) (hey : ey < 65536) :
    runTrace (set_color sx sy ex ey color) st =
      windowEvents sx sy ex ey st ++
      Event.dcLow :: Event.spiWrite [Instruction.RAMWR.to_u8] ::
        pixelEvents (List.replicate (((ex - sx + 1) * (ey - sy + 1)) % 65536) color) := by
  have h1 : u16sub ex sx = ex - sx := by unfold u16sub; omega
  have h2 : u16sub ey sy = ey - sy := by unfold u16sub; omega
  have hcount : u16mul (u16add (u16sub ex sx) 1) (u16add (u16sub ey sy) 1) =
      ((ex - sx + 1) * (ey - sy + 1)) % 65536 := by
    rw [h1, h2]
    unfold u16add u16mul
    have h3 : (ex - sx + 1) % 65536 % 65536 = (ex - sx + 1) % 65536 := by omega
    have h4 : (ey - sy + 1) % 65536 % 65536 = (ey - sy + 1) % 65536 := by omega
    rw [h3, h4, ← Nat.mul_mod]
  have hrun : set_color sx sy ex ey color (mkWorld allOk st) =
      ((write_pixels
          (List.replicate (u16mul (u16add (u16sub ex sx) 1) (u16add (u16sub ey sy) 1)) color)
          { oracle := allOk, calls := 12, st := st }).1,
       (write_pixels
          (List.replicate (u16mul (u16add (u16sub ex sx) 1) (u16add (u16sub ey sy) 1)) color)
          { oracle := allOk, calls := 12, st := st }).2.1,
       windowEvents sx sy ex ey st ++
         (write_pixels
            (List.replicate (u16mul (u16add (u16sub ex sx) 1) (u16add (u16sub ey sy) 1)) color)
            { oracle := allOk, calls := 12, st := st }).2.2) := rfl
  show (set_color sx sy ex ey color (mkWorld allOk st)).2.2 = _
  rw [hrun, write_pixels_run, hcount]

/-- Concrete instance of `set_color_fill`: a 2-by-1 rectangle emits two
color words. -/
theorem set_color_fill_witness :
    (0 : Nat) ≤ 1 ∧ (1 : Nat) < 65536 ∧ (0 : Nat) ≤ 0 ∧ (0 : Nat) < 65536 ∧
    runTrace (set_color 0 0 1 0 5) st0 =
      windowEvents 0 0 1 0 st0 ++
      Event.dcLow :: Event.spiWrite [Instruction.RAMWR.to_u8] ::
        pixelEvents (List.replicate (((1 - 0 + 1) * (0 - 0 + 1)) % 65536) 5) :=
  ⟨by decide, by decide, by decide, by decide,
   set_color_fill 0 0 1 0 5 st0 (by decide) (by decide) (by decide) (by decide)⟩

/-- `wfAux` splits over append: the tail is checked from the line level the
head leaves behind. -/
theorem wfAux_append (t1 t2 : List Event) : ∀ dc : Bool,
    wfAux dc (t1 ++ t2) = (wfAux dc t1 && wfAux (dcAfter dc t1) t2) := by
  induction t1 with
  | nil => intro dc; simp [wfAux, dcAfter]
  | cons e rest ih =>
    intro dc
    simp [wfAux, dcAfter, ih, Bool.and_assoc]

/-- Short-circuit sequencing preserves the command/data discipline. -/
theorem wf_bind {α β : Type} {m : M α} {f : α → M β}
    (hm : WF m) (hf : ∀ a, WF (f a)) : WF (M.bind m f) := by
  intro w dc
  rcases hmw : m w with ⟨r, w1, t1⟩
  cases r with
  | error e =>
    have h := hm w dc
    rw [hmw] at h
    simp only [M.bind, hmw]
    exact h
  | ok a =>
    rcases hfw : f a w1 with ⟨r2, w2, t2⟩
    have h := hm w dc
    rw [hmw] at h
    have h2 := hf a w1 (dcAfter dc t1)
    rw [hfw] at h2
    simp only [M.bind, hmw, hfw]
    rw [wfAux_append]
    simp [h, h2]

/-- A single attempted call whose event is locally well formed at every
line level satisfies the discipline. -/
theorem wf_attempt (e : Event) (h : ∀ dc : Bool, wfStep dc e = true) :
    WF (attempt e) := by
  intro w dc
  show wfAux dc [e] = true
  simp [wfAux, h]

/-- Pure results emit nothing. -/
theorem wf_pure {α : Type} (a : α) : WF (M.pure a) := fun _ _ => rfl

/-- Reading the stored state emits nothing. -/
theorem wf_getSt : WF getSt := fun _ _ => rfl

/-- A delay is not a bus write. -/
theorem wf_delay (ms : Nat) : WF (delayCall ms) := fun _ _ => rfl

/-- `set_offset` emits nothing. -/
theorem wf_set_offset (dx dy : Nat) : WF (set_offset dx dy) := fun _ _ => rfl

/-- Every instruction's wire byte is recognized as an opcode byte. -/
theorem isOpcodeByte_to_u8 (i : Instruction) : isOpcodeByte i.to_u8 = true := by
  cases i <;> rfl

/-- A one-byte opcode write is locally well formed at every line level. -/
theorem wfStep_opcode (i : Instruction) : ∀ dc : Bool,
    wfStep dc (Event.spiWrite [i.to_u8]) = true := by
  intro dc
  cases dc <;> simp [wfStep, isOpcodeByte_to_u8]

/-- `write_data` always raises the line before its bus write, so its trace
respects the discipline from any incoming level. -/
theorem wf_write_data (d : List Nat) : WF (write_data d) := by
  intro w dc
  cases h : w.oracle w.calls <;>
    simp [write_data, M.bind, dcSetHigh, spiWriteBytes, attempt, h,
      wfAux, wfStep, dcAfterEvent]

/-- `write_command` lowers the line, writes one opcode byte, and only then
switches to data mode for parameters. -/
theorem wf_write_command (i : Instruction) (ps : Option (List Nat)) :
    WF (write_command i ps) := by
  apply wf_bind
  · exact wf_attempt Event.dcLow (fun _ => rfl)
  · intro a
    apply wf_bind
    · exact wf_attempt _ (wfStep_opcode i)
    · intro b
      cases ps with
      | some d => exact wf_write_data d
      | none => exact wf_pure ()

/-- `write_word` is a data write. -/
theorem wf_write_word (v : Nat) : WF (write_word v) := wf_write_data _

/-- `hard_reset` touches only the reset pin. -/
theorem wf_hard_reset : WF hard_reset := by
  apply wf_bind (wf_attempt Event.rstHigh (fun _ => rfl))
  intro a
  exact wf_bind (wf_attempt Event.rstLow (fun _ => rfl))
    (fun _ => wf_attempt Event.rstHigh (fun _ => rfl))

/-- `set_address_window` respects the discipline. -/
theorem wf_set_address_window (sx sy ex ey : Nat) :
    WF (set_address_window sx sy ex ey) := by
  apply wf_bind (wf_write_command _ _)
  intro a
  apply wf_bind wf_getSt
  intro s
  apply wf_bind (wf_write_word _)
  intro b
  apply wf_bind (wf_write_word _)
  intro c
  apply wf_bind (wf_write_command _ _)
  intro d
  exact wf_bind (wf_write_word _) (fun _ => wf_write_word _)

/-- `init` respects the discipline. -/
theorem wf_init : WF init := by
  apply wf_bind wf_hard_reset; intro a
  apply wf_bind (wf_write_command _ _); intro a
  apply wf_bind (wf_delay _); intro a
  apply wf_bind (wf_write_command _ _); intro a
  apply wf_bind (wf_delay _); intro a
  apply wf_bind (wf_write_command _ _); intro a
  apply wf_bind (wf_write_command _ _); intro a
  apply wf_bind (wf_write_command _ _); intro a
  apply wf_bind (wf_write_command _ _); intro a
  apply wf_bind (wf_write_command _ _); intro a
  apply wf_bind (wf_write_command _ _); intro a
  apply wf_bind (wf_write_command _ _); intro a
  apply wf_bind (wf_write_command _ _); intro a
  apply wf_bind (wf_write_command _ _); intro a
  apply wf_bind (wf_write_command _ _); intro a
  apply wf_bind wf_getSt; intro s
  apply wf_bind ?_ ?_
  · cases s.inverted <;> simp <;> exact wf_write_command _ _
  intro a
  apply wf_bind ?_ ?_
  · cases s.rgb <;> simp <;> exact wf_write_command _ _
  intro a
  apply wf_bind (wf_write_command _ _); intro a
  exact wf_bind (wf_write_command _ _) (fun _ => wf_delay _)

/-- `set_orientation` respects the discipline. -/
theorem wf_set_orientation (o : Orientation) : WF (set_orientation o) := by
  apply wf_bind wf_getSt
  intro s
  cases s.rgb <;> simp <;> exact wf_write_command _ _

/-- The pixel loop respects the discipline. -/
theorem wf_write_pixels_loop (cs : List Nat) : WF (write_pixels_loop cs) := by
  induction cs with
  | nil => exact wf_pure ()
  | cons c rest ih => exact wf_bind (wf_write_word c) (fun _ => ih)

/-- `write_pixels` respects the discipline. -/
theorem wf_write_pixels (cs : List Nat) : WF (write_pixels cs) :=
  wf_bind (wf_write_command _ _) (fun _ => wf_write_pixels_loop cs)

/-- `set_pixels` respects the discipline. -/
theorem wf_set_pixels (sx sy ex ey : Nat) (cs : List Nat) :
    WF (set_pixels sx sy ex ey cs) :=
  wf_bind (wf_set_address_window sx sy ex ey) (fun _ => wf_write_pixels cs)

/-- `set_color` respects the discipline. -/
theorem wf_set_color (sx sy ex ey c : Nat) : WF (set_color sx sy ex ey c) :=
  wf_bind (wf_set_address_window sx sy ex ey) (fun _ => wf_write_pixels _)

/-- `set_pixel` respects the discipline. -/
theorem wf_set_pixel (x y c : Nat) : WF (set_pixel x y c) := by
  apply wf_bind (wf_set_address_window x y x y)
  intro a
  exact wf_bind (wf_write_command _ _) (fun _ => wf_write_word c)

/-- Every public operation respects the discipline. -/
theorem wf_runOp (op : Op) : WF (runOp op) := by
  cases op with
  | opInit => exact wf_init
  | opHardReset => exact wf_hard_reset
  | opSetOrientation o => exact wf_set_orientation o
  | opSetOffset dx dy => exact wf_set_offset dx dy
  | opSetPixel x y c => exact wf_set_pixel x y c
  | opWritePixels cs => exact wf_write_pixels cs
  | opSetPixels sx sy ex ey cs => exact wf_set_pixels sx sy ex ey cs
  | opSetColor sx sy ex ey c => exact wf_set_color sx sy ex ey c

/-- Sequencing by an external caller respects the discipline. -/
theorem wf_runOps (ops : List Op) : WF (runOps ops) := by
  induction ops with
  | nil => exact wf_pure ()
  | cons op rest ih =>
    intro w dc
    rcases h1 : runOp op w with ⟨r1, w1, t1⟩
    rcases h2 : runOps rest w1 with ⟨r2, w2, t2⟩
    simp only [runOps, h1, h2]
    rw [wfAux_append]
    have ha := wf_runOp op w dc
    rw [h1] at ha
    have hb := ih w1 (dcAfter dc t1)
    rw [h2] at hb
    simp [ha, hb]

/-- C7: in the byte stream produced by any sequence of public operations,
under any fault oracle, any starting state, and any starting line level,
every bus write performed with the data/command line in command state is a
single opcode byte, and every parameter or pixel byte goes out with the
line in data state — no bus write mixes the two (`wfAux`). -/
theorem command_data_discipline (ops : List Op) (w : World) (dc : Bool) :
    wfAux dc (runOps ops w).2.2 = true :=
  wf_runOps ops w dc

/-- Short-circuit sequencing preserves the error-propagation contract. -/
theorem espec_bind {a b : Type} {m : M a} {f : a → M b}
    (hm : ESpec m) (hf : ∀ x, ESpec (f x)) : ESpec (M.bind m f) := by
  intro w
  have hmw := hm w
  rcases hmq : m w with ⟨r, w1, t1⟩
  rw [hmq] at hmw
  cases r with
  | error e =>
    have hb : M.bind m f w = (Except.error e, w1, t1) := by
      simp only [M.bind, hmq]
    rw [hb]
    exact hmw
  | ok x =>
    have hfw := hf x w1
    rcases hfq : f x w1 with ⟨r2, w2, t2⟩
    rw [hfq] at hfw
    have hb : M.bind m f w = (r2, w2, t1 ++ t2) := by
      simp only [M.bind, hmq, hfq]
    rw [hb]
    obtain ⟨ho1, hc1, hok1, herr1⟩ := hmw
    obtain ⟨ho2, hc2, hok2, herr2⟩ := hfw
    simp only at ho1 hc1 hok1 herr1 ho2 hc2 hok2 herr2 ⊢
    have hall1 : ∀ i, w.calls ≤ i → i < w1.calls → w.oracle i = true :=
      hok1.mp rfl
    refine ⟨by rw [ho2, ho1], le_trans hc1 hc2, ?_, ?_⟩
    · constructor
      · intro h2 i hi1 hi2
        rcases lt_or_ge i w1.calls with hlt | hge
        · exact hall1 i hi1 hlt
        · have := hok2.mp h2 i hge hi2
          rw [ho1] at this
          exact this
      · intro hall
        apply hok2.mpr
        intro i hi1 hi2
        rw [ho1]
        exact hall i (le_trans hc1 hi1) hi2
    · intro h2
      obtain ⟨hlt, hfail, hpre⟩ := herr2 h2
      refine ⟨lt_of_le_of_lt hc1 hlt, ?_, ?_⟩
      · rw [← ho1]
        exact hfail
      · intro i hi1 hi2
        rcases lt_or_ge i w1.calls with hl | hg
        · exact hall1 i hi1 hl
        · rw [← ho1]
          exact hpre i hg hi2

/-- One attempted call meets the contract: it consumes exactly its own
oracle index. -/
theorem espec_attempt (e : Event) : ESpec (attempt e) := by
  intro w
  cases h : w.oracle w.calls
  · have hr : attempt e w = (Except.error (), { w with calls := w.calls + 1 }, [e]) := by
      simp [attempt, h]
    rw [hr]
    dsimp only
    refine ⟨rfl, Nat.le_succ _, ?_, ?_⟩
    · constructor
      · intro hfalse
        exact absurd hfalse (by simp [exOk])
      · intro hall
        have hc := hall w.calls (le_refl _) (Nat.lt_succ_self _)
        rw [h] at hc
        cases hc
    · intro _
      refine ⟨Nat.lt_succ_self _, by simpa using h, ?_⟩
      intro i hi1 hi2
      exact absurd hi2 (by omega)
  · have hr : attempt e w = (Except.ok (), { w with calls := w.calls + 1 }, [e]) := by
      simp [attempt, h]
    rw [hr]
    dsimp only
    refine ⟨rfl, Nat.le_succ _, ?_, ?_⟩
    · constructor
      · intro _ i hi1 hi2
        have hi : i = w.calls := by omega
        rw [hi]
        exact h
      · intro _
        rfl
    · intro hfalse
      exact absurd hfalse (by simp [exOk])

/-- Computations that consume no oracle index and always succeed meet the
contract. -/
theorem espec_pure {a : Type} (x : a) : ESpec (M.pure x) := by
  intro w
  have hr : M.pure x w = (Except.ok x, w, []) := rfl
  rw [hr]
  dsimp only
  refine ⟨rfl, le_refl _, ?_, ?_⟩
  · constructor
    · intro _ i hi1 hi2
      exact absurd hi2 (by omega)
    · intro _
      rfl
  · intro hfalse
    exact absurd hfalse (by simp [M.pure, exOk])

/-- `getSt` meets the contract. -/
theorem espec_getSt : ESpec getSt := by
  intro w
  have hr : getSt w = (Except.ok w.st, w, []) := rfl
  rw [hr]
  dsimp only
  refine ⟨rfl, le_refl _, ?_, ?_⟩
  · constructor
    · intro _ i hi1 hi2
      exact absurd hi2 (by omega)
    · intro _
      rfl
  · intro hfalse
    exact absurd hfalse (by simp [getSt, exOk])

/-- A delay meets the contract. -/
theorem espec_delay (ms : Nat) : ESpec (delayCall ms) := by
  intro w
  have hr : delayCall ms w = (Except.ok (), w, [Event.delayMs ms]) := rfl
  rw [hr]
  dsimp only
  refine ⟨rfl, le_refl _, ?_, ?_⟩
  · constructor
    · intro _ i hi1 hi2
      exact absurd hi2 (by omega)
    · intro _
      rfl
  · intro hfalse
    exact absurd hfalse (by simp [delayCall, exOk])

/-- `set_offset` meets the contract. -/
theorem espec_set_offset (dx dy : Nat) : ESpec (set_offset dx dy) := by
  intro w
  have hr : set_offset dx dy w = (Except.ok (), { w with st := { w.st with dx := dx % 65536, dy := dy % 65536 } }, []) := rfl
  rw [hr]
  dsimp only
  refine ⟨rfl, le_refl _, ?_, ?_⟩
  · constructor
    · intro _ i hi1 hi2
      exact absurd hi2 (by omega)
    · intro _
      rfl
  · intro hfalse
    exact absurd hfalse (by simp [set_offset, exOk])

/-- `write_data` meets the contract. -/
theorem espec_write_data (d : List Nat) : ESpec (write_data d) :=
  espec_bind (espec_attempt _) (fun _ => espec_attempt _)

/-- `write_command` meets the contract. -/
theorem espec_write_command (i : Instruction) (ps : Option (List Nat)) :
    ESpec (write_command i ps) := by
  apply espec_bind (espec_attempt Event.dcLow)
  intro a
  apply espec_bind (espec_attempt (Event.spiWrite [i.to_u8]))
  intro b
  cases ps with
  | some d => exact espec_write_data d
  | none => exact espec_pure ()

/-- `write_word` meets the contract. -/
theorem espec_write_word (v : Nat) : ESpec (write_word v) := espec_write_data _

/-- `hard_reset` meets the contract. -/
theorem espec_hard_reset : ESpec hard_reset := by
  apply espec_bind (espec_attempt Event.rstHigh)
  intro a
  exact espec_bind (espec_attempt Event.rstLow) (fun _ => espec_attempt Event.rstHigh)

/-- `set_address_window` meets the contract. -/
theorem espec_set_address_window (sx sy ex ey : Nat) :
    ESpec (set_address_window sx sy ex ey) := by
  apply espec_bind (espec_write_command _ _)
  intro a
  apply espec_bind espec_getSt
  intro s
  apply espec_bind (espec_write_word _)
  intro b
  apply espec_bind (espec_write_word _)
  intro c
  apply espec_bind (espec_write_command _ _)
  intro d
  exact espec_bind (espec_write_word _) (fun _ => espec_write_word _)

/-- `init` meets the contract. -/
theorem espec_init : ESpec init := by
  apply espec_bind espec_hard_reset; intro a
  apply espec_bind (espec_write_command _ _); intro a
  apply espec_bind (espec_delay _); intro a
  apply espec_bind (espec_write_command _ _); intro a
  apply espec_bind (espec_delay _); intro a
  apply espec_bind (espec_write_command _ _); intro a
  apply espec_bind (espec_write_command _ _); intro a
  apply espec_bind (espec_write_command _ _); intro a
  apply espec_bind (espec_write_command _ _); intro a
  apply espec_bind (espec_write_command _ _); intro a
  apply espec_bind (espec_write_command _ _); intro a
  apply espec_bind (espec_write_command _ _); intro a
  apply espec_bind (espec_write_command _ _); intro a
  apply espec_bind (espec_write_command _ _); intro a
  apply espec_bind (espec_write_command _ _); intro a
  apply espec_bind espec_getSt; intro s
  apply espec_bind ?_ ?_
  · cases s.inverted <;> simp <;> exact espec_write_command _ _
  intro a
  apply espec_bind ?_ ?_
  · cases s.rgb <;> simp <;> exact espec_write_command _ _
  intro a
  apply espec_bind (espec_write_command _ _); intro a
  exact espec_bind (espec_write_command _ _) (fun _ => espec_delay _)

/-- `set_orientation` meets the contract. -/
theorem espec_set_orientation (o : Orientation) : ESpec (set_orientation o) := by
  apply espec_bind espec_getSt
  intro s
  cases s.rgb <;> simp <;> exact espec_write_command _ _

/-- The pixel loop meets the contract. -/
theorem espec_write_pixels_loop (cs : List Nat) : ESpec (write_pixels_loop cs) := by
  induction cs with
  | nil => exact espec_pure ()
  | cons c rest ih => exact espec_bind (espec_write_word c) (fun _ => ih)

/-- `write_pixels` meets the contract. -/
theorem espec_write_pixels (cs : List Nat) : ESpec (write_pixels cs) :=
  espec_bind (espec_write_command _ _) (fun _ => espec_write_pixels_loop cs)

/-- `set_pixel` meets the contract. -/
theorem espec_set_pixel (x y c : Nat) : ESpec (set_pixel x y c) := by
  apply espec_bind (espec_set_address_window x y x y)
  intro a
  exact espec_bind (espec_write_command _ _) (fun _ => espec_write_word c)

/-- `set_pixels` meets the contract. -/
theorem espec_set_pixels (sx sy ex ey : Nat) (cs : List Nat) :
    ESpec (set_pixels sx sy ex ey cs) :=
  espec_bind (espec_set_address_window sx sy ex ey) (fun _ => espec_write_pixels cs)

/-- `set_color` meets the contract. -/
theorem espec_set_color (sx sy ex ey c : Nat) : ESpec (set_color sx sy ex ey c) :=
  espec_bind (espec_set_address_window sx sy ex ey) (fun _ => espec_write_pixels _)

/-- Every public operation meets the contract. -/
theorem espec_runOp (op : Op) : ESpec (runOp op) := by
  cases op with
  | opInit => exact espec_init
  | opHardReset => exact espec_hard_reset
  | opSetOrientation o => exact espec_set_orientation o
  | opSetOffset dx dy => exact espec_set_offset dx dy
  | opSetPixel x y c => exact espec_set_pixel x y c
  | opWritePixels cs => exact espec_write_pixels cs
  | opSetPixels sx sy ex ey cs => exact espec_set_pixels sx sy ex ey cs
  | opSetColor sx sy ex ey c => exact espec_set_color sx sy ex ey c

/-- C8: for every public operation and every world, the oracle function is
untouched, fallible calls consume consecutive oracle indices (no retry),
the operation returns `Ok` exactly when no underlying bus-write or
pin-drive call failed, and on failure the last consumed index is the
failing call while every earlier consumed index succeeded — the first
failure aborts the operation. -/
theorem error_iff_call_failed (op : Op) (w : World) :
    (runOp op w).2.1.oracle = w.oracle ∧
    w.calls ≤ (runOp op w).2.1.calls ∧
    (exOk (runOp op w).1 = true ↔
      ∀ i, w.calls ≤ i → i < (runOp op w).2.1.calls → w.oracle i = true) ∧
    (exOk (runOp op w).1 = false →
      w.calls < (runOp op w).2.1.calls ∧
      w.oracle ((runOp op w).2.1.calls - 1) = false ∧
      ∀ i, w.calls ≤ i → i < (runOp op w).2.1.calls - 1 → w.oracle i = true) :=
  espec_runOp op w

/-- Concrete instance of `error_iff_call_failed`: a `hard_reset` whose
second pin drive fails. -/
theorem error_iff_call_failed_witness :
    (runOp Op.opHardReset (mkWorld failSecond st0)).2.1.oracle =
      (mkWorld failSecond st0).oracle ∧
    (mkWorld failSecond st0).calls ≤
      (runOp Op.opHardReset (mkWorld failSecond st0)).2.1.calls ∧
    (exOk (runOp Op.opHardReset (mkWorld failSecond st0)).1 = true ↔
      ∀ i, (mkWorld failSecond st0).calls ≤ i →
        i < (runOp Op.opHardReset (mkWorld failSecond st0)).2.1.calls →
        (mkWorld failSecond st0).oracle i = true) ∧
    (exOk (runOp Op.opHardReset (mkWorld failSecond st0)).1 = false →
      (mkWorld failSecond st0).calls <
        (runOp Op.opHardReset (mkWorld failSecond st0)).2.1.calls ∧
      (mkWorld failSecond st0).oracle
        ((runOp Op.opHardReset (mkWorld failSecond st0)).2.1.calls - 1) = false ∧
      ∀ i, (mkWorld failSecond st0).calls ≤ i →
        i < (runOp Op.opHardReset (mkWorld failSecond st0)).2.1.calls - 1 →
        (mkWorld failSecond st0).oracle i = true) :=
  error_iff_call_failed Op.opHardReset (mkWorld failSecond st0)

/-- C9: `hard_reset` always drives the reset line high, then low, then
high, in that order, truncated at the first failing drive; it attempts
nothing after a failure, and it returns `Ok` exactly when all three pin
drives succeed.  It never touches the stored state. -/
theorem hard_reset_high_low_high (w : World) :
    (hard_reset w).2.2 =
      (if w.oracle w.calls then
        (if w.oracle (w.calls + 1) then [Event.rstHigh, Event.rstLow, Event.rstHigh]
         else [Event.rstHigh, Event.rstLow])
       else [Event.rstHigh]) ∧
    exOk (hard_reset w).1 =
      (w.oracle w.calls && (w.oracle (w.calls + 1) && w.oracle (w.calls + 2))) ∧
    (hard_reset w).2.1.calls =
      (if w.oracle w.calls then
        (if w.oracle (w.calls + 1) then w.calls + 3 else w.calls + 2)
       else w.calls + 1) ∧
    (hard_reset w).2.1.st = w.st := by
  cases h1 : w.oracle w.calls <;> cases h2 : w.oracle (w.calls + 1) <;>
    cases h3 : w.oracle (w.calls + 2) <;>
    simp [hard_reset, M.bind, rstSetHigh, rstSetLow, attempt, exOk, h1, h2, h3]

/-- Short-circuit sequencing leaves the stored state alone when both parts
do. -/
theorem stpres_bind {a b : Type} {m : M a} {f : a → M b}
    (hm : StPres m) (hf : ∀ x, StPres (f x)) : StPres (M.bind m f) := by
  intro w
  rcases hq : m w with ⟨r, w1, t1⟩
  cases r with
  | error e =>
    simp only [M.bind, hq]
    have h := hm w
    rw [hq] at h
    exact h
  | ok x =>
    rcases hq2 : f x w1 with ⟨r2, w2, t2⟩
    simp only [M.bind, hq, hq2]
    have h1 := hm w
    rw [hq] at h1
    have h2 := hf x w1
    rw [hq2] at h2
    dsimp only at h1 h2 ⊢
    rw [h2, h1]

/-- Attempted calls leave the stored state alone. -/
theorem stpres_attempt (e : Event) : StPres (attempt e) := fun _ => rfl

/-- Pure results leave the stored state alone. -/
theorem stpres_pure {a : Type} (x : a) : StPres (M.pure x) := fun _ => rfl

/-- `getSt` leaves the stored state alone. -/
theorem stpres_getSt : StPres getSt := fun _ => rfl

/-- Delays leave the stored state alone. -/
theorem stpres_delay (ms : Nat) : StPres (delayCall ms) := fun _ => rfl

/-- `write_data` leaves the stored state alone. -/
theorem stpres_write_data (d : List Nat) : StPres (write_data d) :=
  stpres_bind (stpres_attempt _) (fun _ => stpres_attempt _)

/-- `write_command` leaves the stored state alone. -/
theorem stpres_write_command (i : Instruction) (ps : Option (List Nat)) :
    StPres (write_command i ps) := by
  apply stpres_bind (stpres_attempt Event.dcLow)
  intro a
  apply stpres_bind (stpres_attempt (Event.spiWrite [i.to_u8]))
  intro b
  cases ps with
  | some d => exact stpres_write_data d
  | none => exact stpres_pure ()

/-- `write_word` leaves the stored state alone. -/
theorem stpres_write_word (v : Nat) : StPres (write_word v) := stpres_write_data _

/-- `hard_reset` leaves the stored state alone. -/
theorem stpres_hard_reset : StPres hard_reset := by
  apply stpres_bind (stpres_attempt Event.rstHigh)
  intro a
  exact stpres_bind (stpres_attempt Event.rstLow) (fun _ => stpres_attempt Event.rstHigh)

/-- `set_address_window` leaves the stored state alone. -/
theorem stpres_set_address_window (sx sy ex ey : Nat) :
    StPres (set_address_window sx sy ex ey) := by
  apply stpres_bind (stpres_write_command _ _)
  intro a
  apply stpres_bind stpres_getSt
  intro s
  apply stpres_bind (stpres_write_word _)
  intro b
  apply stpres_bind (stpres_write_word _)
  intro c
  apply stpres_bind (stpres_write_command _ _)
  intro d
  exact stpres_bind (stpres_write_word _) (fun _ => stpres_write_word _)

/-- `init` leaves the stored state alone. -/
theorem stpres_init : StPres init := by
  apply stpres_bind stpres_hard_reset; intro a
  apply stpres_bind (stpres_write_command _ _); intro a
  apply stpres_bind (stpres_delay _); intro a
  apply stpres_bind (stpres_write_command _ _); intro a
  apply stpres_bind (stpres_delay _); intro a
  apply stpres_bind (stpres_write_command _ _); intro a
  apply stpres_bind (stpres_write_command _ _); intro a
  apply stpres_bind (stpres_write_command _ _); intro a
  apply stpres_bind (stpres_write_command _ _); intro a
  apply stpres_bind (stpres_write_command _ _); intro a
  apply stpres_bind (stpres_write_command _ _); intro a
  apply stpres_bind (stpres_write_command _ _); intro a
  apply stpres_bind (stpres_write_command _ _); intro a
  apply stpres_bind (stpres_write_command _ _); intro a
  apply stpres_bind (stpres_write_command _ _); intro a
  apply stpres_bind stpres_getSt; intro s
  apply stpres_bind ?_ ?_
  · cases s.inverted <;> simp <;> exact stpres_write_command _ _
  intro a
  apply stpres_bind ?_ ?_
  · cases s.rgb <;> simp <;> exact stpres_write_command _ _
  intro a
  apply stpres_bind (stpres_write_command _ _); intro a
  exact stpres_bind (stpres_write_command _ _) (fun _ => stpres_delay _)

/-- `set_orientation` leaves the stored state alone. -/
theorem stpres_set_orientation (o : Orientation) : StPres (set_orientation o) := by
  apply stpres_bind stpres_getSt
  intro s
  cases s.rgb <;> simp <;> exact stpres_write_command _ _

/-- The pixel loop leaves the stored state alone. -/
theorem stpres_write_pixels_loop (cs : List Nat) : StPres (write_pixels_loop cs) := by
  induction cs with
  | nil => exact stpres_pure ()
  | cons c rest ih => exact stpres_bind (stpres_write_word c) (fun _ => ih)

/-- `write_pixels` leaves the stored state alone. -/
theorem stpres_write_pixels (cs : List Nat) : StPres (write_pixels cs) :=
  stpres_bind (stpres_write_command _ _) (fun _ => stpres_write_pixels_loop cs)

/-- `set_pixel` leaves the stored state alone. -/
theorem stpres_set_pixel (x y c : Nat) : StPres (set_pixel x y c) := by
  apply stpres_bind (stpres_set_address_window x y x y)
  intro a
  exact stpres_bind (stpres_write_command _ _) (fun _ => stpres_write_word c)

/-- `set_pixels` leaves the stored state alone. -/
theorem stpres_set_pixels (sx sy ex ey : Nat) (cs : List Nat) :
    StPres (set_pixels sx sy ex ey cs) :=
  stpres_bind (stpres_set_address_window sx sy ex ey) (fun _ => stpres_write_pixels cs)

/-- `set_color` leaves the stored state alone. -/
theorem stpres_set_color (sx sy ex ey c : Nat) : StPres (set_color sx sy ex ey c) :=
  stpres_bind (stpres_set_address_window sx sy ex ey) (fun _ => stpres_write_pixels _)

/-- The frame-effect conjunction for an operation known to preserve the
whole stored state. -/
theorem frame_of_stpres (op : Op) (w : World) (hp : StPres (runOp op))
    (hne : ∀ dx dy, op ≠ Op.opSetOffset dx dy) :
    (runOp op w).2.1.st.rgb = w.st.rgb ∧
    (runOp op w).2.1.st.inverted = w.st.inverted ∧
    (runOp op w).2.1.st.width = w.st.width ∧
    (runOp op w).2.1.st.height = w.st.height ∧
    (Op.touchesOffset op = false →
      (runOp op w).2.1.st.dx = w.st.dx ∧ (runOp op w).2.1.st.dy = w.st.dy) ∧
    (∀ dx dy, op = Op.opSetOffset dx dy →
      (runOp op w).2.1.st = { w.st with dx := dx % 65536, dy := dy % 65536 }) := by
  have h := hp w
  refine ⟨by rw [h], by rw [h], by rw [h], by rw [h],
    fun _ => ⟨by rw [h], by rw [h]⟩, ?_⟩
  intro a b hab
  exact absurd hab (hne a b)

/-- C10: every operation other than `set_offset` leaves all stored
configuration fields (`rgb`, `inverted`, `dx`, `dy`, `width`, `height`)
unchanged in every world — whether it succeeds or fails — and `set_offset`
changes exactly `dx` and `dy`. -/
theorem config_frame (op : Op) (w : World) :
    (runOp op w).2.1.st.rgb = w.st.rgb ∧
    (runOp op w).2.1.st.inverted = w.st.inverted ∧
    (runOp op w).2.1.st.width = w.st.width ∧
    (runOp op w).2.1.st.height = w.st.height ∧
    (Op.touchesOffset op = false →
      (runOp op w).2.1.st.dx = w.st.dx ∧ (runOp op w).2.1.st.dy = w.st.dy) ∧
    (∀ dx dy, op = Op.opSetOffset dx dy →
      (runOp op w).2.1.st = { w.st with dx := dx % 65536, dy := dy % 65536 }) := by
  cases op with
  | opSetOffset dx dy =>
    refine ⟨rfl, rfl, rfl, rfl, ?_, ?_⟩
    · intro h
      simp [Op.touchesOffset] at h
    · intro a b hab
      injection hab with ha hb
      subst ha
      subst hb
      rfl
  | opInit =>
    exact frame_of_stpres _ w stpres_init (fun a b hab => Op.noConfusion hab)
  | opHardReset =>
    exact frame_of_stpres _ w stpres_hard_reset (fun a b hab => Op.noConfusion hab)
  | opSetOrientation o =>
    exact frame_of_stpres _ w (stpres_set_orientation o) (fun a b hab => Op.noConfusion hab)
  | opSetPixel x y c =>
    exact frame_of_stpres _ w (stpres_set_pixel x y c) (fun a b hab => Op.noConfusion hab)
  | opWritePixels cs =>
    exact frame_of_stpres _ w (stpres_write_pixels cs) (fun a b hab => Op.noConfusion hab)
  | opSetPixels sx sy ex ey cs =>
    exact frame_of_stpres _ w (stpres_set_pixels sx sy ex ey cs)
      (fun a b hab => Op.noConfusion hab)
  | opSetColor sx sy ex ey c =>
    exact frame_of_stpres _ w (stpres_set_color sx sy ex ey c)
      (fun a b hab => Op.noConfusion hab)

/-- Concrete instance of `config_frame` at `set_offset 7 9`. -/
theorem config_frame_witness :
    (runOp (Op.opSetOffset 7 9) (mkWorld allOk st0)).2.1.st.rgb = (mkWorld allOk st0).st.rgb ∧
    (runOp (Op.opSetOffset 7 9) (mkWorld allOk st0)).2.1.st.inverted = (mkWorld allOk st0).st.inverted ∧
    (runOp (Op.opSetOffset 7 9) (mkWorld allOk st0)).2.1.st.width = (mkWorld allOk st0).st.width ∧
    (runOp (Op.opSetOffset 7 9) (mkWorld allOk st0)).2.1.st.height = (mkWorld allOk st0).st.height ∧
    (Op.touchesOffset (Op.opSetOffset 7 9) = false →
      (runOp (Op.opSetOffset 7 9) (mkWorld allOk st0)).2.1.st.dx = (mkWorld allOk st0).st.dx ∧
      (runOp (Op.opSetOffset 7 9) (mkWorld allOk st0)).2.1.st.dy = (mkWorld allOk st0).st.dy) ∧
    (∀ dx dy, Op.opSetOffset 7 9 = Op.opSetOffset dx dy →
      (runOp (Op.opSetOffset 7 9) (mkWorld allOk st0)).2.1.st =
        { (mkWorld allOk st0).st with dx := dx % 65536, dy := dy % 65536 }) :=
  config_frame (Op.opSetOffset 7 9) (mkWorld allOk st0)

end ST7735